import Mathlib

/-!
Shallow embedding of JitCalc (src/main.cpp): a lisp-syntax arithmetic
evaluator with two backends sharing one generic visitor — a tree-walking
interpreter over doubles (`Calculator`, `CalculatorFunction`) and an
AsmJit-based code generator (`CodeGenCalculatorFunction`) that emits an
SSE instruction stream once at construction time.

Modelling conventions:
- IEEE doubles are modelled by `FpVal`: an exact rational together with
  the special values +inf, -inf and NaN.  Arithmetic on in-range exact
  values (all the values the claims probe) agrees with IEEE double
  arithmetic; rounding, overflow and signed zero are idealized away.
- C++ exceptions become `Except String`; mutation of members captured by
  the handler closures becomes explicit state threading of type `σ`.
- `std::vector` reads `v[i]` are in-bounds reads; an out-of-bounds read is
  undefined behaviour in the source and is modelled as the value 0.0
  (`vecGet`); no theorem below rests on that arbitrary choice except where
  a claim is explicitly about the unchecked path.
- `std::map<std::string, T>` is observed only through `find`, `at` and
  `operator[]`, so it is modelled as an association list.
-/

attribute [local semireducible] Rat.mul Rat.add Rat.sub Rat.inv

/-- Model of an IEEE double: exact rational finite values plus the special
values positive infinity, negative infinity and NaN (signed zero and
rounding are not modelled). -/
inductive FpVal where
  | finite (q : Rat)
  | inf
  | neginf
  | nan
deriving DecidableEq

/-- The value-initialized double `double()` is +0.0. -/
instance : Inhabited FpVal := ⟨FpVal.finite 0⟩

/-- IEEE addition on the model.  Core `Rat` operations and integer sign
tests are used throughout so that concrete runs reduce inside the kernel;
for a normalized rational, `a.num = 0` is `a = 0` and `0 < a.num` is
`0 < a`. -/
def fpAdd : FpVal → FpVal → FpVal
  | .nan, _ => .nan
  | _, .nan => .nan
  | .finite a, .finite b => .finite (Rat.add a b)
  | .finite _, .inf => .inf
  | .finite _, .neginf => .neginf
  | .inf, .finite _ => .inf
  | .neginf, .finite _ => .neginf
  | .inf, .inf => .inf
  | .inf, .neginf => .nan
  | .neginf, .inf => .nan
  | .neginf, .neginf => .neginf

/-- IEEE subtraction on the model. -/
def fpSub : FpVal → FpVal → FpVal
  | .nan, _ => .nan
  | _, .nan => .nan
  | .finite a, .finite b => .finite (Rat.sub a b)
  | .finite _, .inf => .neginf
  | .finite _, .neginf => .inf
  | .inf, .finite _ => .inf
  | .neginf, .finite _ => .neginf
  | .inf, .inf => .nan
  | .inf, .neginf => .inf
  | .neginf, .inf => .neginf
  | .neginf, .neginf => .nan

/-- IEEE multiplication on the model. -/
def fpMul : FpVal → FpVal → FpVal
  | .nan, _ => .nan
  | _, .nan => .nan
  | .finite a, .finite b => .finite (Rat.mul a b)
  | .finite a, .inf => if a.num = 0 then .nan else if 0 < a.num then .inf else .neginf
  | .finite a, .neginf => if a.num = 0 then .nan else if 0 < a.num then .neginf else .inf
  | .inf, .finite b => if b.num = 0 then .nan else if 0 < b.num then .inf else .neginf
  | .neginf, .finite b => if b.num = 0 then .nan else if 0 < b.num then .neginf else .inf
  | .inf, .inf => .inf
  | .inf, .neginf => .neginf
  | .neginf, .inf => .neginf
  | .neginf, .neginf => .inf

/-- IEEE division on the model.  Division of a nonzero finite value by zero
produces a signed infinity (not an error), 0/0 produces NaN. -/
def fpDiv : FpVal → FpVal → FpVal
  | .nan, _ => .nan
  | _, .nan => .nan
  | .finite a, .finite b =>
      if b.num = 0 then
        (if a.num = 0 then .nan else if 0 < a.num then .inf else .neginf)
      else .finite (Rat.div a b)
  | .finite _, .inf => .finite 0
  | .finite _, .neginf => .finite 0
  | .inf, .finite b => if 0 ≤ b.num then .inf else .neginf
  | .neginf, .finite b => if 0 ≤ b.num then .neginf else .inf
  | .inf, .inf => .nan
  | .inf, .neginf => .nan
  | .neginf, .inf => .nan
  | .neginf, .neginf => .nan

/-- Numeric value of a list of decimal digit characters. -/
def digitsToNat (ds : List Char) : Nat :=
  ds.foldl (fun a c => a * 10 + (c.toNat - 48)) 0

/-- Value of an unsigned decimal literal read from the front of `cs`
(integer digits, optionally followed by a point and fraction digits);
trailing non-numeric characters are tolerated silently and no digits at
all yields 0, as with `std::atof`. -/
def atofCore (cs : List Char) : Rat :=
  let ip := cs.takeWhile Char.isDigit
  let rest := cs.dropWhile Char.isDigit
  let fp :=
    match rest with
    | '.' :: r => r.takeWhile Char.isDigit
    | _ => []
  mkRat (Int.ofNat (digitsToNat ip * 10 ^ fp.length + digitsToNat fp)) (10 ^ fp.length)

/-- Model of `std::atof` on plain decimal literals: optional leading
whitespace and sign, digits, optional fraction.  Exponent, hexadecimal and
inf/nan spellings are not modelled (no claim uses them). -/
def atof (s : String) : FpVal :=
  let cs := s.data.dropWhile (fun c => c = ' ' || c = '\t' || c = '\n' || c = '\r')
  match cs with
  | '-' :: r => FpVal.finite (Rat.neg (atofCore r))
  | '+' :: r => FpVal.finite (atofCore r)
  | _ => FpVal.finite (atofCore cs)

/-- S-expression structure (`struct Cell`, main.cpp:26-35).  The C++ struct
carries a type tag plus both a `val` string and a child vector; the
inductive keeps exactly the fields each tag uses. -/
inductive Cell where
  | Symbol (val : String)
  | Number (val : String)
  | List (list : List Cell)

/-- The `val` field of a cell; list cells are built with an empty `val`
(`Cell(Cell::List)` value-initializes the string). -/
def Cell.val : Cell → String
  | .Symbol s => s
  | .Number s => s
  | .List _ => ""

/-- Association-list model of `std::map` lookup (`find` / `at`). -/
def lookupFn {β : Type} : List (String × β) → String → Option β
  | [], _ => none
  | (k, v) :: rest, s => if k = s then some v else lookupFn rest s

/-- Model of `std::vector<double>::operator[]`: in-bounds read; an
out-of-bounds read is undefined behaviour in the source, modelled as 0.0. -/
def vecGet (d : List FpVal) (i : Nat) : FpVal :=
  d.getD i (FpVal.finite 0)

/-- Generic templated visitor (main.cpp:42-87).  The result type `R` is the
template parameter `EvalReturn`; `σ` threads the mutable state captured by
the handler closures (empty for the bare calculator, the `argNameToIndex`
member for the interpreted function, the in-progress compiler for the code
generator); handlers may throw, modelled by `Except String`. -/
structure Visitor (R σ : Type) [Inhabited R] where
  functionMap : List (String × (List R → σ → Except String (R × σ)))
  numberHandler : String → σ → Except String (R × σ)
  symbolHandler : Option (String → σ → Except String (R × σ))

mutual

/-- `Visitor::eval` (main.cpp:59-86).  A `Number` goes to the number
handler; a `List` first evaluates every child but the first, left to
right, then looks the first child's `val` up in `functionMap`, throwing
`Could not handle procedure` when absent; a `Symbol` calls the symbol
handler when one is set — when none is set the source builds a
`std::runtime_error` but never throws it (the `throw` keyword is missing
on main.cpp:81 and main.cpp:84), so control falls through to
`return EvalReturn()`, modelled by returning `default`.  An empty list
underflows `c.list.size()-1` and the huge vector allocation throws,
modelled as an error. -/
def eval {R σ : Type} [Inhabited R] (v : Visitor R σ) : Cell → σ → Except String (R × σ)
  | .Number s, st => v.numberHandler s st
  | .Symbol s, st =>
      match v.symbolHandler with
      | some h => h s st
      | none => .ok (default, st)
  | .List cs, st =>
      match cs with
      | [] => .error "std::bad_alloc"
      | c0 :: rest => do
          let (evalArgs, st1) ← evalOperands v rest st
          match lookupFn v.functionMap c0.val with
          | none => .error ("Could not handle procedure: " ++ c0.val)
          | some f => f evalArgs st1
termination_by structural c => c

/-- The `std::transform` over `c.list.begin()+1 .. end()` (main.cpp:67-70):
each operand is evaluated in order, one result per operand, exceptions
propagating. -/
def evalOperands {R σ : Type} [Inhabited R] (v : Visitor R σ) :
    List Cell → σ → Except String (List R × σ)
  | [], st => .ok ([], st)
  | c :: cs, st => do
      let (r, st1) ← eval v c st
      let (rs, st2) ← evalOperands v cs st1
      .ok (r :: rs, st2)
termination_by structural cs => cs

end

/-- Decidable equality of `Except` values, used only to evaluate concrete
runs in witnesses. -/
instance {ε α : Type} [DecidableEq ε] [DecidableEq α] : DecidableEq (Except ε α)
  | .ok a, .ok b =>
      if h : a = b then .isTrue (by rw [h])
      else .isFalse (fun hh => by cases hh; exact h rfl)
  | .ok _, .error _ => .isFalse (fun hh => by cases hh)
  | .error _, .ok _ => .isFalse (fun hh => by cases hh)
  | .error a, .error b =>
      if h : a = b then .isTrue (by rw [h])
      else .isFalse (fun hh => by cases hh; exact h rfl)

/-- The shared operation table of the interpreted path (main.cpp:94-97), in
source insertion order `+ - / *`.  Each operation reads exactly `d[0]` and
`d[1]`; with fewer than two evaluated operands the source reads the vector
out of bounds (see `vecGet`), with more the extras are ignored.  `σ` is the
(untouched) threaded state of the enclosing backend. -/
def calcFunctionMap (σ : Type) :
    List (String × (List FpVal → σ → Except String (FpVal × σ))) :=
  [("+", fun d st => .ok (fpAdd (vecGet d 0) (vecGet d 1), st)),
   ("-", fun d st => .ok (fpSub (vecGet d 0) (vecGet d 1), st)),
   ("/", fun d st => .ok (fpDiv (vecGet d 0) (vecGet d 1), st)),
   ("*", fun d st => .ok (fpMul (vecGet d 0) (vecGet d 1), st))]

/-- The interpreted number handler (main.cpp:99-101): `std::atof`. -/
def calcNumberHandler (σ : Type) : String → σ → Except String (FpVal × σ) :=
  fun s st => .ok (atof s, st)

/-- Interpreted calculator without variables (main.cpp:90-103): no
`symbolHandler` is installed. -/
def Calculator : Visitor FpVal Unit where
  functionMap := calcFunctionMap Unit
  numberHandler := calcNumberHandler Unit
  symbolHandler := none

/-- Insert-or-overwrite on the association-list model of `std::map`
(assignment through `operator[]`). -/
def mapInsert : List (String × Nat) → String → Nat → List (String × Nat)
  | [], k, v => [(k, v)]
  | (k1, v1) :: rest, k, v =>
      if k1 = k then (k1, v) :: rest else (k1, v1) :: mapInsert rest k v

/-- The constructor loop `argNameToIndex[names[i]] = i` (main.cpp:112-113). -/
def buildArgMap (names : List String) : List (String × Nat) :=
  names.enum.foldl (fun m p => mapInsert m p.2 p.1) []

/-- Model of `std::map<std::string,int>::operator[]`: an absent key is
default-inserted with the value-initialized `int` 0, and the (possibly
extended) map persists. -/
def mapIndexGet (m : List (String × Nat)) (k : String) : Nat × List (String × Nat) :=
  match lookupFn m k with
  | some v => (v, m)
  | none => (0, m ++ [(k, 0)])

/-- The symbol handler installed by `CalculatorFunction::operator()`
(main.cpp:117-119): `args[this->argNameToIndex[name]]`, i.e. a
default-inserting map lookup followed by an unchecked vector read. -/
def cfSymbolHandler (args : List FpVal) :
    String → List (String × Nat) → Except String (FpVal × List (String × Nat)) :=
  fun name m =>
    let p := mapIndexGet m name
    .ok (vecGet args p.1, p.2)

/-- The visitor seen by one call of `CalculatorFunction::operator()`: the
inherited `Calculator` tables plus the per-call symbol handler; the state
is the mutable `argNameToIndex` member. -/
def cfVisitor (args : List FpVal) : Visitor FpVal (List (String × Nat)) where
  functionMap := calcFunctionMap (List (String × Nat))
  numberHandler := calcNumberHandler (List (String × Nat))
  symbolHandler := some (cfSymbolHandler args)

/-- `class CalculatorFunction` (main.cpp:106-122): the name-to-index map and
the stored cell. -/
structure CalculatorFunction where
  argNameToIndex : List (String × Nat)
  cell : Cell

/-- The `CalculatorFunction(names, c)` constructor (main.cpp:111-114). -/
def CalculatorFunction.construct (names : List String) (c : Cell) : CalculatorFunction :=
  { argNameToIndex := buildArgMap names, cell := c }

/-- `CalculatorFunction::operator()` (main.cpp:116-121): installs the symbol
handler and evaluates the stored cell; the returned object carries the
possibly mutated `argNameToIndex` member. -/
def CalculatorFunction.call (f : CalculatorFunction) (args : List FpVal) :
    Except String (FpVal × CalculatorFunction) :=
  match eval (cfVisitor args) f.cell f.argNameToIndex with
  | .ok (v, m) => .ok (v, { argNameToIndex := m, cell := f.cell })
  | .error e => .error e

/-- One emitted SSE instruction of the code-generation backend.  Virtual
`XmmVar` registers are numbered by allocation order; `SetXmmVar`
(main.cpp:204-213) moves a double's bit pattern through a scratch GP
register into an Xmm register, which round-trips the value exactly and is
modelled as a single constant move. -/
inductive Instr where
  | movConst (dst : Nat) (val : FpVal)
  | load (dst : Nat) (byteOffset : Nat)
  | addsd (dst src : Nat)
  | subsd (dst src : Nat)
  | mulsd (dst src : Nat)
  | divsd (dst src : Nat)
deriving DecidableEq

/-- State of the in-progress `AsmJit::X86Compiler`: the next fresh virtual
register number and the instruction stream emitted so far. -/
structure CState where
  nextVar : Nat
  instrs : List Instr
deriving DecidableEq

/-- `compiler.newXmmVar()`: allocate a fresh virtual register. -/
def newXmmVar (st : CState) : Nat × CState :=
  (st.nextVar, { st with nextVar := st.nextVar + 1 })

/-- Append one instruction to the emitted stream. -/
def emit (st : CState) (i : Instr) : CState :=
  { st with instrs := st.instrs ++ [i] }

/-- The operator table of the code generator (main.cpp:139-157), insertion
order `+ - * /`: each emits the in-place binary SSE instruction on
`args[0]`, `args[1]` and returns `args[0]` as the result register.  As in
`calcFunctionMap`, fewer than two operands would read out of bounds. -/
def cgFunctionMap : List (String × (List Nat → CState → Except String (Nat × CState))) :=
  [("+", fun a st => .ok (a.getD 0 0, emit st (Instr.addsd (a.getD 0 0) (a.getD 1 0)))),
   ("-", fun a st => .ok (a.getD 0 0, emit st (Instr.subsd (a.getD 0 0) (a.getD 1 0)))),
   ("*", fun a st => .ok (a.getD 0 0, emit st (Instr.mulsd (a.getD 0 0) (a.getD 1 0)))),
   ("/", fun a st => .ok (a.getD 0 0, emit st (Instr.divsd (a.getD 0 0) (a.getD 1 0))))]

/-- The code-generation number handler (main.cpp:160-165): parse with
`std::atof` and materialize the constant into a fresh register. -/
def cgNumberHandler : String → CState → Except String (Nat × CState) :=
  fun s st =>
    let x := atof s
    let p := newXmmVar st
    .ok (p.1, emit p.2 (Instr.movConst p.1 x))

/-- The code-generation symbol handler (main.cpp:170-180): look the name up
with `argNameToIndex.at(name)` — which throws `std::out_of_range` for an
undeclared name — and emit a load of the double at byte offset
`index * sizeof(double)` from the argument pointer. -/
def cgSymbolHandler (amap : List (String × Nat)) :
    String → CState → Except String (Nat × CState) :=
  fun name st =>
    match lookupFn amap name with
    | none => .error "std::out_of_range: map::at"
    | some idx =>
        let p := newXmmVar st
        .ok (p.1, emit p.2 (Instr.load p.1 (idx * 8)))

/-- The visitor used by `CodeGenCalculatorFunction`'s constructor
(main.cpp:135-183). -/
def cgVisitor (names : List String) : Visitor Nat CState where
  functionMap := cgFunctionMap
  numberHandler := cgNumberHandler
  symbolHandler := some (cgSymbolHandler (buildArgMap names))

/-- The finalized generated function: the emitted instruction stream plus
the register returned by `compiler.ret` (main.cpp:185-193). -/
structure CodeGenCalculatorFunction where
  instrs : List Instr
  retVar : Nat

/-- The `CodeGenCalculatorFunction(names, cell)` constructor: one full
tree-walk at construction time (`generate`, main.cpp:182-193) emits the
whole instruction stream; any exception escapes the constructor. -/
def CodeGenCalculatorFunction.construct (names : List String) (cell : Cell) :
    Except String CodeGenCalculatorFunction :=
  match eval (cgVisitor names) cell { nextVar := 0, instrs := [] } with
  | .ok (r, st) => .ok { instrs := st.instrs, retVar := r }
  | .error e => .error e

/-- Pointwise register-file update. -/
def updReg (regs : Nat → FpVal) (d : Nat) (x : FpVal) : Nat → FpVal :=
  fun k => if k = d then x else regs k

/-- Execution of one instruction against the argument array `args` (the
`const double *` parameter of the generated function). -/
def step (args : List FpVal) (regs : Nat → FpVal) : Instr → (Nat → FpVal)
  | .movConst d x => updReg regs d x
  | .load d off => updReg regs d (vecGet args (off / 8))
  | .addsd d s => updReg regs d (fpAdd (regs d) (regs s))
  | .subsd d s => updReg regs d (fpSub (regs d) (regs s))
  | .mulsd d s => updReg regs d (fpMul (regs d) (regs s))
  | .divsd d s => updReg regs d (fpDiv (regs d) (regs s))

/-- Sequential execution of an instruction stream. -/
def runInstrs (args : List FpVal) (l : List Instr) (regs : Nat → FpVal) : Nat → FpVal :=
  l.foldl (step args) regs

/-- `CodeGenCalculatorFunction::operator()` (main.cpp:195-197): run the
finalized routine on the argument array and read the return register. -/
def CodeGenCalculatorFunction.call (f : CodeGenCalculatorFunction) (args : List FpVal) : FpVal :=
  runInstrs args f.instrs (fun _ => FpVal.finite 0) f.retVar

/-- The numeric-argument handling of `main` (main.cpp:319-335): the count
check `codeIndex + 1 + argNames.size() != argc` — equivalently, the number
of numeric command-line arguments must equal the number of declared
parameters — happens before either backend is constructed or called, and
prints an explicit error on mismatch. -/
def mainEvaluate (argNames : List String) (expr : Cell) (numericArgs : List FpVal) :
    Except String (FpVal × FpVal) :=
  if argNames.length ≠ numericArgs.length then
    .error "Error: Wrong number of numeric arguments passed in."
  else
    match (CalculatorFunction.construct argNames expr).call numericArgs with
    | .error e => .error e
    | .ok (iv, _) =>
        match CodeGenCalculatorFunction.construct argNames expr with
        | .error e => .error e
        | .ok jf => .ok (iv, jf.call numericArgs)

/-- The four operation names both backends install. -/
def isStdOp (op : String) : Bool :=
  op = "+" || op = "-" || op = "/" || op = "*"

/-- The pure binary meaning of a standard operation name. -/
def applyOp (op : String) (x y : FpVal) : FpVal :=
  if op = "+" then fpAdd x y
  else if op = "-" then fpSub x y
  else if op = "/" then fpDiv x y
  else if op = "*" then fpMul x y
  else FpVal.finite 0

/-- Well-formed formula bodies over the parameter map `amap`: numbers,
declared symbols, and binary applications of the four standard operators. -/
def WellFormed (amap : List (String × Nat)) : Cell → Bool
  | .Number _ => true
  | .Symbol s => (lookupFn amap s).isSome
  | .List [Cell.Symbol op, a, b] =>
      isStdOp op && WellFormed amap a && WellFormed amap b
  | .List _ => false
termination_by structural c => c

/-- Reference denotation of a well-formed body: the number a direct
recursive evaluation produces. -/
def den (amap : List (String × Nat)) (args : List FpVal) : Cell → FpVal
  | .Number s => atof s
  | .Symbol n => vecGet args ((lookupFn amap n).getD 0)
  | .List [c0, a, b] => applyOp c0.val (den amap args a) (den amap args b)
  | .List _ => FpVal.finite 0
termination_by structural c => c

mutual

/-- Whether some operand-position symbol of the tree (a symbol anywhere
except as the head of a list) is absent from `amap`. -/
def hasUndeclaredOperand (amap : List (String × Nat)) : Cell → Bool
  | .Number _ => false
  | .Symbol s => (lookupFn amap s).isNone
  | .List cs =>
      match cs with
      | [] => false
      | _ :: rest => hasUndeclaredList amap rest
termination_by structural c => c

/-- Disjunction of `hasUndeclaredOperand` over a list of operands. -/
def hasUndeclaredList (amap : List (String × Nat)) : List Cell → Bool
  | [] => false
  | c :: cs => hasUndeclaredOperand amap c || hasUndeclaredList amap cs
termination_by structural cs => cs

end

/-- One observable event of an instrumented evaluation: a number literal
consumed, a symbol resolved, or an operation applied to `arity` operand
results. -/
inductive Event where
  | num (s : String)
  | sym (s : String)
  | app (op : String) (arity : Nat)
deriving DecidableEq

/-- An instrumentation instance of the generic visitor: the threaded state
is the list of events so far, and every handler merely logs itself.  Used
to observe the evaluation order that `Visitor::eval` imposes. -/
def spyVisitor : Visitor Unit (List Event) where
  functionMap :=
    [("+", fun rs tr => .ok ((), tr ++ [Event.app "+" rs.length])),
     ("-", fun rs tr => .ok ((), tr ++ [Event.app "-" rs.length])),
     ("/", fun rs tr => .ok ((), tr ++ [Event.app "/" rs.length])),
     ("*", fun rs tr => .ok ((), tr ++ [Event.app "*" rs.length]))]
  numberHandler := fun s tr => .ok ((), tr ++ [Event.num s])
  symbolHandler := some (fun s tr => .ok ((), tr ++ [Event.sym s]))

mutual

/-- The event sequence a depth-first, left-to-right, operands-then-operator
walk of the tree should produce; the head of a list contributes no operand
events, only the final application event. -/
def trace : Cell → List Event
  | .Number s => [Event.num s]
  | .Symbol s => [Event.sym s]
  | .List cs =>
      match cs with
      | [] => []
      | c0 :: rest => traceList rest ++ [Event.app c0.val rest.length]
termination_by structural c => c

/-- Concatenation of `trace` over an operand list, left to right. -/
def traceList : List Cell → List Event
  | [] => []
  | c :: cs => trace c ++ traceList cs
termination_by structural cs => cs

end

mutual

/-- Whether every list node of the tree is nonempty and headed by one of
the four standard operator names (so that instrumented evaluation never
aborts). -/
def HeadsKnown : Cell → Bool
  | .Number _ => true
  | .Symbol _ => true
  | .List cs =>
      match cs with
      | [] => false
      | c0 :: rest => isStdOp c0.val && HeadsKnownList rest
termination_by structural c => c

/-- Conjunction of `HeadsKnown` over a list of operands. -/
def HeadsKnownList : List Cell → Bool
  | [] => true
  | c :: cs => HeadsKnown c && HeadsKnownList cs
termination_by structural cs => cs

end

@[simp]
theorem ebind_ok {α β : Type} (a : α) (f : α → Except String β) :
    (Bind.bind (Except.ok a) f : Except String β) = f a := rfl

@[simp]
theorem ebind_error {α β : Type} (e : String) (f : α → Except String β) :
    (Bind.bind (Except.error e) f : Except String β) = Except.error e := rfl

theorem isStdOp_elim {s : String} (h : isStdOp s = true) :
    s = "+" ∨ s = "-" ∨ s = "/" ∨ s = "*" := by
  simp [isStdOp] at h
  tauto

theorem lookup_calc_none {σ : Type} {s : String} (h : isStdOp s = false) :
    lookupFn (calcFunctionMap σ) s = none := by
  simp [isStdOp] at h
  obtain ⟨⟨⟨h1, h2⟩, h3⟩, h4⟩ := h
  simp [calcFunctionMap, lookupFn, Ne.symm h1, Ne.symm h2, Ne.symm h3, Ne.symm h4]

theorem lookup_cg_none {s : String} (h : isStdOp s = false) :
    lookupFn cgFunctionMap s = none := by
  simp [isStdOp] at h
  obtain ⟨⟨⟨h1, h2⟩, h3⟩, h4⟩ := h
  simp [cgFunctionMap, lookupFn, Ne.symm h1, Ne.symm h2, Ne.symm h3, Ne.symm h4]

theorem lookupFn_append_self {β : Type} (m : List (String × β)) (s : String) (v : β)
    (h : lookupFn m s = none) : lookupFn (m ++ [(s, v)]) s = some v := by
  induction m with
  | nil => simp [lookupFn]
  | cons kv rest ih =>
      obtain ⟨k, w⟩ := kv
      by_cases hk : k = s
      · simp [lookupFn, hk] at h
      · simp [lookupFn, hk] at h ⊢
        exact ih h

theorem eval_list_unknown_head {R σ : Type} [Inhabited R] (v : Visitor R σ)
    (c0 : Cell) (rest : List Cell) (st : σ)
    (h : lookupFn v.functionMap c0.val = none) :
    ∃ e, eval v (Cell.List (c0 :: rest)) st = .error e := by
  cases hop : evalOperands v rest st with
  | error e => exact ⟨e, by simp [eval, hop]⟩
  | ok p =>
      obtain ⟨rs, st1⟩ := p
      exact ⟨"Could not handle procedure: " ++ c0.val, by simp [eval, hop, h]⟩

/-- C2: the spec says a `Symbol` reached with no symbol resolver installed
fails with an unresolved-symbol error; in the source the `throw` keyword is
missing (main.cpp:81 builds a `std::runtime_error` and discards it), so the
bare `Calculator` backend instead returns the value-initialized result
`double()` = 0.0 for every symbol. -/
theorem calculator_bare_symbol_returns_zero (s : String) :
    eval Calculator (Cell.Symbol s) () = .ok (FpVal.finite 0, ()) := rfl

/-- C3: evaluating a list whose head names no table operation errors out in
both backends — the interpreted call and the code-generating construction
both finish with an explicit exception, never with a value. -/
theorem unknown_operation_errors_both_backends (c0 : Cell) (rest : List Cell)
    (names : List String) (args : List FpVal) (hop : isStdOp c0.val = false) :
    (∃ e, (CalculatorFunction.construct names (Cell.List (c0 :: rest))).call args =
      .error e) ∧
    (∃ e, CodeGenCalculatorFunction.construct names (Cell.List (c0 :: rest)) =
      .error e) := by
  constructor
  · obtain ⟨e, he⟩ := eval_list_unknown_head (cfVisitor args) c0 rest
      (buildArgMap names) (lookup_calc_none hop)
    exact ⟨e, by simp [CalculatorFunction.call, CalculatorFunction.construct, he]⟩
  · obtain ⟨e, he⟩ := eval_list_unknown_head (cgVisitor names) c0 rest
      { nextVar := 0, instrs := [] } (lookup_cg_none hop)
    exact ⟨e, by simp [CodeGenCalculatorFunction.construct, he]⟩

/-- Witness for C3 at the spec's example `((x) (% x x))` with `x = 2`. -/
theorem unknown_operation_errors_witness :
    isStdOp (Cell.val (Cell.Symbol "%")) = false ∧
    ((∃ e, (CalculatorFunction.construct ["x"]
        (Cell.List [Cell.Symbol "%", Cell.Symbol "x", Cell.Symbol "x"])).call
        [FpVal.finite (mkRat 2 1)] = .error e) ∧
     (∃ e, CodeGenCalculatorFunction.construct ["x"]
        (Cell.List [Cell.Symbol "%", Cell.Symbol "x", Cell.Symbol "x"]) = .error e)) :=
  ⟨by decide,
   unknown_operation_errors_both_backends (Cell.Symbol "%")
     [Cell.Symbol "x", Cell.Symbol "x"] ["x"] [FpVal.finite (mkRat 2 1)] (by decide)⟩

/-- C7: each interpreted operation `+ - / *` reads exactly the first two
evaluated operands: on any operand vector of length at least two its result
equals its result on the first two elements alone, extra operands being
silently ignored. -/
theorem calc_ops_strictly_binary {σ : Type} (st : σ) (d : List FpVal)
    (h : 2 ≤ d.length) (op : String) (hop : isStdOp op = true) :
    (lookupFn (calcFunctionMap σ) op).map (fun f => f d st) =
      (lookupFn (calcFunctionMap σ) op).map (fun f => f (d.take 2) st) := by
  cases d with
  | nil => simp at h
  | cons a d2 =>
    cases d2 with
    | nil => simp at h
    | cons b rest =>
      rcases isStdOp_elim hop with rfl | rfl | rfl | rfl <;>
        simp [calcFunctionMap, lookupFn, vecGet]

/-- Witness for C7: `+` on the three-operand vector `[1, 2, 3]` equals `+`
on `[1, 2]`. -/
theorem calc_ops_strictly_binary_witness :
    2 ≤ [FpVal.finite (mkRat 1 1), FpVal.finite (mkRat 2 1),
        FpVal.finite (mkRat 3 1)].length ∧
    isStdOp "+" = true ∧
    (lookupFn (calcFunctionMap Unit) "+").map
        (fun f => f [FpVal.finite (mkRat 1 1), FpVal.finite (mkRat 2 1),
          FpVal.finite (mkRat 3 1)] ()) =
      (lookupFn (calcFunctionMap Unit) "+").map
        (fun f => f ([FpVal.finite (mkRat 1 1), FpVal.finite (mkRat 2 1),
          FpVal.finite (mkRat 3 1)].take 2) ()) :=
  ⟨by decide, by decide,
   calc_ops_strictly_binary () [FpVal.finite (mkRat 1 1), FpVal.finite (mkRat 2 1),
     FpVal.finite (mkRat 3 1)] (by decide) "+" (by decide)⟩

/-- C8 counterexample: a `CalculatorFunction` declaring two parameters,
called with a single argument, returns a value instead of failing — the
call path performs no argument-count check. -/
theorem call_with_wrong_arity_returns_value :
    ((CalculatorFunction.construct ["x", "y"] (Cell.Symbol "x")).call
        [FpVal.finite (mkRat 5 1)]).map Prod.fst =
      .ok (FpVal.finite (mkRat 5 1)) := rfl

/-- C8 amended: the argument-count check lives in `main` (main.cpp:319-323),
not in the function objects: the driver refuses to evaluate and reports an
explicit wrong-number-of-arguments error whenever the numeric argument
count differs from the declared parameter count. -/
theorem main_rejects_wrong_numeric_arg_count (names : List String) (expr : Cell)
    (args : List FpVal) (h : names.length ≠ args.length) :
    mainEvaluate names expr args =
      .error "Error: Wrong number of numeric arguments passed in." := by
  simp [mainEvaluate, h]

/-- Witness for the amended C8: two declared parameters, one numeric
argument. -/
theorem main_rejects_wrong_numeric_arg_count_witness :
    (["x", "y"] : List String).length ≠ ([FpVal.finite (mkRat 5 1)] : List FpVal).length ∧
    mainEvaluate ["x", "y"] (Cell.Symbol "x") [FpVal.finite (mkRat 5 1)] =
      .error "Error: Wrong number of numeric arguments passed in." :=
  ⟨by decide,
   main_rejects_wrong_numeric_arg_count ["x", "y"] (Cell.Symbol "x")
     [FpVal.finite (mkRat 5 1)] (by decide)⟩

/-- C10: calling the interpreted function on a body that is a symbol absent
from the declared parameters does not fail: `argNameToIndex[name]`
default-inserts the name with index 0, the call returns `args[0]`, and the
call leaves the inserted entry behind in the function object's map. -/
theorem undeclared_symbol_default_inserted (names : List String) (s : String)
    (args : List FpVal) (h1 : lookupFn (buildArgMap names) s = none)
    (h2 : args ≠ []) :
    ((CalculatorFunction.construct names (Cell.Symbol s)).call args).map
        (fun p => (p.1, p.2.argNameToIndex)) =
      .ok (vecGet args 0, buildArgMap names ++ [(s, 0)]) ∧
    lookupFn (buildArgMap names ++ [(s, 0)]) s = some 0 := by
  refine ⟨?_, lookupFn_append_self _ _ _ h1⟩
  simp [CalculatorFunction.call, CalculatorFunction.construct, eval, cfVisitor,
    cfSymbolHandler, mapIndexGet, h1, Except.map]

/-- Witness for C10: one declared parameter `a`, body symbol `z`, one
argument 7. -/
theorem undeclared_symbol_default_inserted_witness :
    lookupFn (buildArgMap ["a"]) "z" = none ∧
    ([FpVal.finite (mkRat 7 1)] : List FpVal) ≠ [] ∧
    (((CalculatorFunction.construct ["a"] (Cell.Symbol "z")).call
        [FpVal.finite (mkRat 7 1)]).map (fun p => (p.1, p.2.argNameToIndex)) =
      .ok (vecGet [FpVal.finite (mkRat 7 1)] 0, buildArgMap ["a"] ++ [("z", 0)]) ∧
     lookupFn (buildArgMap ["a"] ++ [("z", 0)]) "z" = some 0) :=
  ⟨by decide, by decide,
   undeclared_symbol_default_inserted ["a"] "z" [FpVal.finite (mkRat 7 1)]
     (by decide) (by decide)⟩

theorem cg_undeclared_aux (names : List String) (k : Nat) :
    (∀ c : Cell, sizeOf c ≤ k → hasUndeclaredOperand (buildArgMap names) c = true →
      ∀ (st : CState) (r : Nat) (st2 : CState),
        eval (cgVisitor names) c st ≠ .ok (r, st2)) ∧
    (∀ cs : List Cell, sizeOf cs ≤ k → hasUndeclaredList (buildArgMap names) cs = true →
      ∀ (st : CState) (rs : List Nat) (st2 : CState),
        evalOperands (cgVisitor names) cs st ≠ .ok (rs, st2)) := by
  induction k with
  | zero =>
      constructor
      · intro c hc
        exfalso
        cases c <;> simp at hc
      · intro cs hcs
        exfalso
        cases cs <;> simp at hcs
  | succ k ih =>
      constructor
      · intro c hc hbad st r st2 heq
        cases c with
        | Number s => simp [hasUndeclaredOperand] at hbad
        | Symbol s =>
            simp [hasUndeclaredOperand, Option.isNone_iff_eq_none] at hbad
            simp [eval, cgVisitor, cgSymbolHandler, hbad] at heq
        | List cs =>
            cases cs with
            | nil => simp [hasUndeclaredOperand] at hbad
            | cons c0 rest =>
                have hbad2 : hasUndeclaredList (buildArgMap names) rest = true := by
                  simpa [hasUndeclaredOperand] using hbad
                have hsz : sizeOf rest ≤ k := by
                  simp at hc
                  omega
                cases hop : evalOperands (cgVisitor names) rest st with
                | error e => simp [eval, hop] at heq
                | ok p =>
                    obtain ⟨rs, st1⟩ := p
                    exact ih.2 rest hsz hbad2 st rs st1 hop
      · intro cs hcs hbad st rs st2 heq
        cases cs with
        | nil => simp [hasUndeclaredList] at hbad
        | cons c cs2 =>
            have hsz1 : sizeOf c ≤ k := by
              simp at hcs
              omega
            have hsz2 : sizeOf cs2 ≤ k := by
              simp at hcs
              omega
            simp [hasUndeclaredList] at hbad
            cases hc2 : eval (cgVisitor names) c st with
            | error e => simp [evalOperands, hc2] at heq
            | ok p =>
                obtain ⟨r, st1⟩ := p
                rcases hbad with hb | hb
                · exact ih.1 c hsz1 hb st r st1 hc2
                · cases hop : evalOperands (cgVisitor names) cs2 st1 with
                  | error e => simp [evalOperands, hc2, hop] at heq
                  | ok q =>
                      obtain ⟨rs2, st3⟩ := q
                      exact ih.2 cs2 hsz2 hb st1 rs2 st3 hop

/-- C9: constructing a `CodeGenCalculatorFunction` whose body uses a symbol
not among the declared parameter names throws during construction
(`argNameToIndex.at` raises `std::out_of_range` while the constructor's
single tree-walk emits code), so no callable is produced. -/
theorem codegen_undeclared_symbol_construction_fails (names : List String)
    (body : Cell) (h : hasUndeclaredOperand (buildArgMap names) body = true) :
    ∃ e, CodeGenCalculatorFunction.construct names body = .error e := by
  cases hev : eval (cgVisitor names) body { nextVar := 0, instrs := [] } with
  | ok p =>
      obtain ⟨r, st⟩ := p
      exact absurd hev ((cg_undeclared_aux names (sizeOf body)).1 body le_rfl h _ r st)
  | error e => exact ⟨e, by simp [CodeGenCalculatorFunction.construct, hev]⟩

/-- Witness for C9: parameter list `[x]`, body the undeclared symbol `y`. -/
theorem codegen_undeclared_symbol_witness :
    hasUndeclaredOperand (buildArgMap ["x"]) (Cell.Symbol "y") = true ∧
    ∃ e, CodeGenCalculatorFunction.construct ["x"] (Cell.Symbol "y") = .error e :=
  ⟨by decide,
   codegen_undeclared_symbol_construction_fails ["x"] (Cell.Symbol "y") (by decide)⟩

theorem spy_trace_aux (k : Nat) :
    (∀ c : Cell, sizeOf c ≤ k → HeadsKnown c = true →
      ∀ tr : List Event, eval spyVisitor c tr = .ok ((), tr ++ trace c)) ∧
    (∀ cs : List Cell, sizeOf cs ≤ k → HeadsKnownList cs = true →
      ∀ tr : List Event, evalOperands spyVisitor cs tr =
        .ok (List.replicate cs.length (), tr ++ traceList cs)) := by
  induction k with
  | zero =>
      constructor
      · intro c hc
        exfalso
        cases c <;> simp at hc
      · intro cs hcs
        exfalso
        cases cs <;> simp at hcs
  | succ k ih =>
      constructor
      · intro c hc hknown tr
        cases c with
        | Number s => simp [eval, spyVisitor, trace]
        | Symbol s => simp [eval, spyVisitor, trace]
        | List cs =>
            cases cs with
            | nil => simp [HeadsKnown] at hknown
            | cons c0 rest =>
                simp [HeadsKnown] at hknown
                obtain ⟨hop, hkl⟩ := hknown
                have hsz : sizeOf rest ≤ k := by
                  simp at hc
                  omega
                have hops := ih.2 rest hsz hkl tr
                rcases isStdOp_elim hop with h4 | h4 | h4 | h4 <;>
                  (simp [eval, hops, trace, h4]; simp [spyVisitor, lookupFn])
      · intro cs hcs hk tr
        cases cs with
        | nil => simp [evalOperands, traceList]
        | cons c cs2 =>
            simp [HeadsKnownList] at hk
            obtain ⟨hk1, hk2⟩ := hk
            have hsz1 : sizeOf c ≤ k := by
              simp at hcs
              omega
            have hsz2 : sizeOf cs2 ≤ k := by
              simp at hcs
              omega
            have h1 := ih.1 c hsz1 hk1 tr
            have h2 := ih.2 cs2 hsz2 hk2 (tr ++ trace c)
            simp [evalOperands, h1, h2, traceList, List.replicate_succ]

/-- C5: for a list node, instrumented evaluation shows the evaluation
order the generic evaluator imposes — every child except the first is
evaluated left to right in tree order (the concatenated operand traces),
producing one result per operand, and only afterwards is the matched
operation applied to that result sequence (arity `rest.length`); the first
child contributes no operand events. -/
theorem eval_list_operand_order (c0 : Cell) (rest : List Cell)
    (hknown : HeadsKnown (Cell.List (c0 :: rest)) = true) (tr : List Event) :
    eval spyVisitor (Cell.List (c0 :: rest)) tr =
      .ok ((), tr ++ traceList rest ++ [Event.app c0.val rest.length]) := by
  have h := (spy_trace_aux (sizeOf (Cell.List (c0 :: rest)))).1 _ le_rfl hknown tr
  simpa [trace] using h

/-- Witness for C5 at the body of the worked example,
`(+ (* x y) 10.5)`: operands trace left to right, the operator `+` is
applied last to two results, and the head symbol is never evaluated. -/
theorem eval_list_operand_order_witness :
    HeadsKnown (Cell.List [Cell.Symbol "+",
      Cell.List [Cell.Symbol "*", Cell.Symbol "x", Cell.Symbol "y"],
      Cell.Number "10.5"]) = true ∧
    eval spyVisitor (Cell.List [Cell.Symbol "+",
        Cell.List [Cell.Symbol "*", Cell.Symbol "x", Cell.Symbol "y"],
        Cell.Number "10.5"]) [] =
      .ok ((), [Event.sym "x", Event.sym "y", Event.app "*" 2,
        Event.num "10.5", Event.app "+" 2]) :=
  ⟨by decide,
   eval_list_operand_order (Cell.Symbol "+")
     [Cell.List [Cell.Symbol "*", Cell.Symbol "x", Cell.Symbol "y"],
      Cell.Number "10.5"] (by decide) []⟩

theorem cf_den_aux (amap : List (String × Nat)) (args : List FpVal) (k : Nat) :
    ∀ c : Cell, sizeOf c ≤ k → WellFormed amap c = true →
      eval (cfVisitor args) c amap = .ok (den amap args c, amap) := by
  induction k with
  | zero =>
      intro c hc
      exfalso
      cases c <;> simp at hc
  | succ k ih =>
      intro c hc hwf
      cases c with
      | Number s => simp [eval, cfVisitor, calcNumberHandler, den]
      | Symbol s =>
          simp [WellFormed, Option.isSome_iff_exists] at hwf
          obtain ⟨idx, hidx⟩ := hwf
          simp [eval, cfVisitor, cfSymbolHandler, mapIndexGet, hidx, den]
      | List cs =>
          cases cs with
          | nil => simp [WellFormed] at hwf
          | cons c0 cs1 =>
            cases cs1 with
            | nil => simp [WellFormed] at hwf
            | cons c1 cs2 =>
              cases cs2 with
              | nil => simp [WellFormed] at hwf
              | cons c2 cs3 =>
                cases cs3 with
                | cons c3 cs4 => simp [WellFormed] at hwf
                | nil =>
                  cases c0 with
                  | Number s => simp [WellFormed] at hwf
                  | List l => simp [WellFormed] at hwf
                  | Symbol op =>
                    simp only [WellFormed, Bool.and_eq_true] at hwf
                    obtain ⟨⟨hop, hwa⟩, hwb⟩ := hwf
                    have hsa : sizeOf c1 ≤ k := by
                      simp at hc
                      omega
                    have hsb : sizeOf c2 ≤ k := by
                      simp at hc
                      omega
                    have ha := ih c1 hsa hwa
                    have hb := ih c2 hsb hwb
                    rcases isStdOp_elim hop with h4 | h4 | h4 | h4 <;>
                      subst h4 <;>
                      (simp [eval, evalOperands, ha, hb, den, Cell.val];
                       simp [cfVisitor, calcFunctionMap, lookupFn, applyOp, vecGet])

theorem runInstrs_append (args : List FpVal) (l1 l2 : List Instr) (regs : Nat → FpVal) :
    runInstrs args (l1 ++ l2) regs = runInstrs args l2 (runInstrs args l1 regs) := by
  simp [runInstrs, List.foldl_append]

theorem runInstrs_single (args : List FpVal) (i : Instr) (regs : Nat → FpVal) :
    runInstrs args [i] regs = step args regs i := rfl

/-- Code-generation correctness invariant for one subtree: from any
compiler state, emission succeeds, appends a block of instructions, returns
a register allocated inside the block, and running the block leaves all
registers below the starting allocation point untouched while leaving the
subtree's interpreted value in the result register. -/
abbrev CgOk (names : List String) (args : List FpVal) (c : Cell) : Prop :=
  ∀ (n0 : Nat) (pre : List Instr), ∃ r Δ n2,
    eval (cgVisitor names) c { nextVar := n0, instrs := pre } =
      .ok (r, { nextVar := n2, instrs := pre ++ Δ }) ∧
    n0 ≤ r ∧ r < n2 ∧
    ∀ regs : Nat → FpVal,
      (∀ j, j < n0 → runInstrs args Δ regs j = regs j) ∧
      runInstrs args Δ regs r = den (buildArgMap names) args c

theorem cg_op_case (names : List String) (args : List FpVal) (op : String)
    (ictor : Nat → Nat → Instr) (fpop : FpVal → FpVal → FpVal)
    (hlook : lookupFn cgFunctionMap op =
      some (fun a st => .ok (a.getD 0 0, emit st (ictor (a.getD 0 0) (a.getD 1 0)))))
    (hstep : ∀ (regs : Nat → FpVal) (d s : Nat),
      step args regs (ictor d s) = updReg regs d (fpop (regs d) (regs s)))
    (happ : ∀ x y, applyOp op x y = fpop x y)
    (c1 c2 : Cell) (h1 : CgOk names args c1) (h2 : CgOk names args c2) :
    CgOk names args (Cell.List [Cell.Symbol op, c1, c2]) := by
  intro n0 pre
  obtain ⟨r1, D1, n1, hev1, hlb1, hub1, hrun1⟩ := h1 n0 pre
  obtain ⟨r2, D2, n2, hev2, hlb2, hub2, hrun2⟩ := h2 n1 (pre ++ D1)
  refine ⟨r1, D1 ++ (D2 ++ [ictor r1 r2]), n2, ?_, by omega, by omega, ?_⟩
  · simp [eval, evalOperands, hev1, hev2, Cell.val]
    simp [cgVisitor, hlook, emit]
  · intro regs
    have p1 := hrun1 regs
    have p2 := hrun2 (runInstrs args D1 regs)
    constructor
    · intro j hj
      have hjr : j ≠ r1 := by omega
      simp [runInstrs_append, runInstrs_single, hstep, updReg, hjr]
      rw [p2.1 j (by omega), p1.1 j hj]
    · simp [runInstrs_append, runInstrs_single, hstep, updReg]
      rw [p2.1 r1 (by omega), p1.2, p2.2]
      simp [den, Cell.val, happ]

theorem cg_correct_aux (names : List String) (args : List FpVal) (k : Nat) :
    ∀ c : Cell, sizeOf c ≤ k → WellFormed (buildArgMap names) c = true →
      CgOk names args c := by
  induction k with
  | zero =>
      intro c hc
      exfalso
      cases c <;> simp at hc
  | succ k ih =>
      intro c hc hwf
      cases c with
      | Number s =>
          intro n0 pre
          refine ⟨n0, [Instr.movConst n0 (atof s)], n0 + 1, ?_, le_rfl,
            Nat.lt_succ_self n0, ?_⟩
          · simp [eval, cgVisitor, cgNumberHandler, newXmmVar, emit]
          · intro regs
            constructor
            · intro j hj
              have hj2 : j ≠ n0 := by omega
              simp [runInstrs_single, step, updReg, hj2]
            · simp [runInstrs_single, step, updReg, den]
      | Symbol s =>
          simp [WellFormed, Option.isSome_iff_exists] at hwf
          obtain ⟨idx, hidx⟩ := hwf
          intro n0 pre
          refine ⟨n0, [Instr.load n0 (idx * 8)], n0 + 1, ?_, le_rfl,
            Nat.lt_succ_self n0, ?_⟩
          · simp [eval, cgVisitor, cgSymbolHandler, hidx, newXmmVar, emit]
          · intro regs
            constructor
            · intro j hj
              have hj2 : j ≠ n0 := by omega
              simp [runInstrs_single, step, updReg, hj2]
            · simp [runInstrs_single, step, updReg, den, hidx]
      | List cs =>
          cases cs with
          | nil => simp [WellFormed] at hwf
          | cons c0 cs1 =>
            cases cs1 with
            | nil => simp [WellFormed] at hwf
            | cons c1 cs2 =>
              cases cs2 with
              | nil => simp [WellFormed] at hwf
              | cons c2 cs3 =>
                cases cs3 with
                | cons c3 cs4 => simp [WellFormed] at hwf
                | nil =>
                  cases c0 with
                  | Number s => simp [WellFormed] at hwf
                  | List l => simp [WellFormed] at hwf
                  | Symbol op =>
                    simp only [WellFormed, Bool.and_eq_true] at hwf
                    obtain ⟨⟨hop, hwa⟩, hwb⟩ := hwf
                    have hsa : sizeOf c1 ≤ k := by
                      simp at hc
                      omega
                    have hsb : sizeOf c2 ≤ k := by
                      simp at hc
                      omega
                    rcases isStdOp_elim hop with h4 | h4 | h4 | h4 <;> subst h4
                    · exact cg_op_case names args "+" Instr.addsd fpAdd rfl
                        (fun regs d s => rfl) (fun x y => rfl) c1 c2
                        (ih c1 hsa hwa) (ih c2 hsb hwb)
                    · exact cg_op_case names args "-" Instr.subsd fpSub rfl
                        (fun regs d s => rfl) (fun x y => rfl) c1 c2
                        (ih c1 hsa hwa) (ih c2 hsb hwb)
                    · exact cg_op_case names args "/" Instr.divsd fpDiv rfl
                        (fun regs d s => rfl) (fun x y => rfl) c1 c2
                        (ih c1 hsa hwa) (ih c2 hsb hwb)
                    · exact cg_op_case names args "*" Instr.mulsd fpMul rfl
                        (fun regs d s => rfl) (fun x y => rfl) c1 c2
                        (ih c1 hsa hwa) (ih c2 hsb hwb)

/-- C1: for every well-formed body over the operators `+ - * /` whose
symbols are all declared parameters, and every argument vector matching the
declared arity, the interpreted function call and the compiled function
built from the same names and tree both succeed and return the same value. -/
theorem interpreted_and_compiled_agree (names : List String) (body : Cell)
    (args : List FpVal)
    (hwf : WellFormed (buildArgMap names) body = true)
    (hlen : args.length = names.length) :
    ∃ (v : FpVal) (fObj : CalculatorFunction) (f : CodeGenCalculatorFunction),
      (CalculatorFunction.construct names body).call args = .ok (v, fObj) ∧
      CodeGenCalculatorFunction.construct names body = .ok f ∧
      f.call args = v := by
  have hi := cf_den_aux (buildArgMap names) args (sizeOf body) body le_rfl hwf
  obtain ⟨r, D, n2, hev, hlb, hub, hrun⟩ :=
    cg_correct_aux names args (sizeOf body) body le_rfl hwf 0 []
  refine ⟨den (buildArgMap names) args body,
    { argNameToIndex := buildArgMap names, cell := body },
    { instrs := D, retVar := r }, ?_, ?_, ?_⟩
  · simp [CalculatorFunction.call, CalculatorFunction.construct, hi]
  · simp [CodeGenCalculatorFunction.construct, hev]
  · have h := (hrun (fun _ => FpVal.finite 0)).2
    simpa [CodeGenCalculatorFunction.call] using h

/-- Witness for C1 at the worked example `((x y) (+ (* x y) 10.5))` with
arguments 4 and 2. -/
theorem interpreted_and_compiled_agree_witness :
    WellFormed (buildArgMap ["x", "y"]) (Cell.List [Cell.Symbol "+",
      Cell.List [Cell.Symbol "*", Cell.Symbol "x", Cell.Symbol "y"],
      Cell.Number "10.5"]) = true ∧
    ([FpVal.finite (mkRat 4 1), FpVal.finite (mkRat 2 1)] : List FpVal).length =
      (["x", "y"] : List String).length ∧
    ∃ (v : FpVal) (fObj : CalculatorFunction) (f : CodeGenCalculatorFunction),
      (CalculatorFunction.construct ["x", "y"] (Cell.List [Cell.Symbol "+",
          Cell.List [Cell.Symbol "*", Cell.Symbol "x", Cell.Symbol "y"],
          Cell.Number "10.5"])).call
          [FpVal.finite (mkRat 4 1), FpVal.finite (mkRat 2 1)] = .ok (v, fObj) ∧
      CodeGenCalculatorFunction.construct ["x", "y"] (Cell.List [Cell.Symbol "+",
          Cell.List [Cell.Symbol "*", Cell.Symbol "x", Cell.Symbol "y"],
          Cell.Number "10.5"]) = .ok f ∧
      f.call [FpVal.finite (mkRat 4 1), FpVal.finite (mkRat 2 1)] = v :=
  ⟨by decide, by decide,
   interpreted_and_compiled_agree ["x", "y"]
     (Cell.List [Cell.Symbol "+",
       Cell.List [Cell.Symbol "*", Cell.Symbol "x", Cell.Symbol "y"],
       Cell.Number "10.5"])
     [FpVal.finite (mkRat 4 1), FpVal.finite (mkRat 2 1)] (by decide) (by decide)⟩

/-- C4: `((x y) (+ (* x y) 10.5))` at `x = 4, y = 2` evaluates to exactly
18.5 (= 37/2, the value `atof` gives to the literal text 18.5) through the
interpreted backend, and the compiled backend returns the same value. -/
theorem example_formula_yields_18_5 :
    atof "18.5" = FpVal.finite (mkRat 37 2) ∧
    ((CalculatorFunction.construct ["x", "y"] (Cell.List [Cell.Symbol "+",
        Cell.List [Cell.Symbol "*", Cell.Symbol "x", Cell.Symbol "y"],
        Cell.Number "10.5"])).call
        [FpVal.finite (mkRat 4 1), FpVal.finite (mkRat 2 1)]).map Prod.fst =
      .ok (FpVal.finite (mkRat 37 2)) ∧
    (CodeGenCalculatorFunction.construct ["x", "y"] (Cell.List [Cell.Symbol "+",
        Cell.List [Cell.Symbol "*", Cell.Symbol "x", Cell.Symbol "y"],
        Cell.Number "10.5"])).map
        (fun f => f.call [FpVal.finite (mkRat 4 1), FpVal.finite (mkRat 2 1)]) =
      .ok (FpVal.finite (mkRat 37 2)) :=
  ⟨rfl, rfl, rfl⟩

/-- C6: `((a b) (/ a b))` at `a = 1, b = 0` yields positive infinity in both
backends; division of a positive finite double by zero follows the IEEE
rule (an infinity, not a raised error). -/
theorem division_by_zero_yields_infinity :
    ((CalculatorFunction.construct ["a", "b"]
        (Cell.List [Cell.Symbol "/", Cell.Symbol "a", Cell.Symbol "b"])).call
        [FpVal.finite (mkRat 1 1), FpVal.finite (mkRat 0 1)]).map Prod.fst =
      .ok FpVal.inf ∧
    (CodeGenCalculatorFunction.construct ["a", "b"]
        (Cell.List [Cell.Symbol "/", Cell.Symbol "a", Cell.Symbol "b"])).map
        (fun f => f.call [FpVal.finite (mkRat 1 1), FpVal.finite (mkRat 0 1)]) =
      .ok FpVal.inf ∧
    fpDiv (FpVal.finite (mkRat 1 1)) (FpVal.finite (mkRat 0 1)) = FpVal.inf :=
  ⟨rfl, rfl, rfl⟩
